import Mathlib

/-!
Shallow embedding of the imageplus markup builders and orchestrator.

The TypeScript sources embedded here:
* `VirtualTag` (src/src/VirtualTag.ts): a tag name plus an insertion-ordered
  string-to-string attribute map (a JavaScript `Map`), serialized by `build`.
* `Img` and `Source` (src/unnamed/part_000): builders extending `VirtualTag`.
* the orchestrator pieces of src/src/index.ts: `assertDirExists`, the
  format-by-size task enumeration, the `Promise.allSettled` result loop, the
  grouping by MIME type and the per-type `Source` construction.

JavaScript `Map` semantics are modelled by an association list with an upsert
(`mapSet`) that keeps the key at its first-insertion position, exactly as
`Map.prototype.set` does.  Effectful collaborators (the sharp engine, the
filesystem) are passed in explicitly as data.
-/

namespace ImagePlus

/-- JavaScript `Map.prototype.set`: update the value in place when the key is
already present (keeping its original position), otherwise append. -/
def mapSet (m : List (String × String)) (k v : String) : List (String × String) :=
  match m with
  | [] => [(k, v)]
  | (k0, v0) :: rest => if k0 = k then (k, v) :: rest else (k0, v0) :: mapSet rest k v

/-- `VirtualTag` from src/src/VirtualTag.ts: a tag name and the attribute map. -/
structure VirtualTag where
  tagName : String
  map : List (String × String)
deriving DecidableEq

/-- The `VirtualTag` constructor: empty attribute map. -/
def VirtualTag.new (tagName : String) : VirtualTag :=
  { tagName := tagName, map := [] }

/-- `setAttribute(key, value)`: upsert into the map, return self. -/
def VirtualTag.setAttribute (t : VirtualTag) (key value : String) : VirtualTag :=
  { t with map := mapSet t.map key value }

/-- `build()`: `l = ["<" + tagName]`, one `key="value"` chunk per map entry in
map order, then `l.concat(">").join(" ")`.  Note the closing `>` is joined
with a space like every other element. -/
def VirtualTag.build (t : VirtualTag) : String :=
  String.intercalate " "
    ((("<" ++ t.tagName) :: t.map.map (fun kv => kv.1 ++ "=\"" ++ kv.2 ++ "\"")) ++ [">"])

/-- Lookup of the first entry with a given key in an attribute map. -/
def attrLookup : List (String × String) → String → Option String
  | [], _ => none
  | kv :: rest, k => if kv.1 = k then some kv.2 else attrLookup rest k

/-- Attribute lookup in a `VirtualTag`, for stating properties. -/
def getAttr (t : VirtualTag) (k : String) : Option String :=
  attrLookup t.map k

/-- The keys of an attribute map, in order. -/
def attrKeys : List (String × String) → List String
  | [] => []
  | kv :: rest => kv.1 :: attrKeys rest

/-- `ImgLoading` enum from src/unnamed/part_000. -/
inductive ImgLoading
  | Eager
  | Lazy
deriving DecidableEq

/-- The string value of an `ImgLoading` member. -/
def ImgLoading.val : ImgLoading → String
  | .Eager => "eager"
  | .Lazy => "lazy"

/-- `ImgDecoding` enum from src/unnamed/part_000. -/
inductive ImgDecoding
  | Sync
  | Async
  | Auto
deriving DecidableEq

/-- The string value of an `ImgDecoding` member. -/
def ImgDecoding.val : ImgDecoding → String
  | .Sync => "sync"
  | .Async => "async"
  | .Auto => "auto"

/-- `Img extends VirtualTag`: the inherited tag state plus the private
`src`, `alt` fields and the `styleMap`. -/
structure Img where
  tag : VirtualTag
  src : String
  alt : String
  styleMap : List (String × String)
deriving DecidableEq

/-- The `Img` constructor: `super("img")`, then
`setAttribute("loading", "eager")` and `setAttribute("decoding", "sync")`;
`src` and `alt` are stored as fields and the style map starts empty.
No `src` or `alt` attribute is ever set on the tag. -/
def Img.new (src alt : String) : Img :=
  { tag := (((VirtualTag.new "img").setAttribute "loading" ImgLoading.Eager.val).setAttribute
      "decoding" ImgDecoding.Sync.val)
    src := src
    alt := alt
    styleMap := [] }

/-- `setLoading(loading)`: overwrite the `loading` attribute. -/
def Img.setLoading (img : Img) (loading : ImgLoading) : Img :=
  { img with tag := img.tag.setAttribute "loading" loading.val }

/-- `setDeconding(deconding)` (sic): overwrite the `decoding` attribute. -/
def Img.setDeconding (img : Img) (deconding : ImgDecoding) : Img :=
  { img with tag := img.tag.setAttribute "decoding" deconding.val }

/-- `setStyle(key, value)`: upsert into the style map. -/
def Img.setStyle (img : Img) (key value : String) : Img :=
  { img with styleMap := mapSet img.styleMap key value }

/-- `useLQIP(width = 20)`: run the sharp pipeline
`sharp(this.src).resize(width).toFormat("jpg").toBuffer()` then base64-encode;
on success set the three background style entries; on failure the promise
rejects with the engine error unchanged (there is no catch and no wrapping).
The engine is modelled as a function from source path and width to either an
error or the base64 string. -/
def Img.useLQIP (engine : String → Nat → Except String String) (img : Img)
    (width : Nat) : Except String Img :=
  match engine img.src width with
  | .error e => .error e
  | .ok base64String =>
    .ok ((((img.setStyle "background"
        ("url(data:image/jpeg;base64," ++ base64String ++ ")")).setStyle
        "background-size" "cover")).setStyle "background-repeat" "no-repeat")

/-- The `"prop: value;"` chunks of `Img.toString`, joined with a space. -/
def Img.styleString (img : Img) : String :=
  String.intercalate " " (img.styleMap.map (fun kv => kv.1 ++ ": " ++ kv.2 ++ ";"))

/-- `Img.toString()`: flatten the style map, `setAttribute("style", ...)`
(a mutation of the tag state), then `build()`.  Returns the produced string
together with the post-call state. -/
def Img.toStringRun (img : Img) : String × Img :=
  let img2 : Img := { img with tag := img.tag.setAttribute "style" img.styleString }
  (img2.tag.build, img2)

/-- The string returned by `Img.toString()`. -/
def Img.render (img : Img) : String :=
  (Img.toStringRun img).1

/-- `Source extends VirtualTag`: the tag state, the `type` field and the
`srcset` array. -/
structure Source where
  tag : VirtualTag
  type : String
  srcset : List String
deriving DecidableEq

/-- The `Source` constructor: `super("source")`, record the type and
`setAttribute("type", type)`; the srcset array starts empty. -/
def Source.new (type : String) : Source :=
  { tag := (VirtualTag.new "source").setAttribute "type" type
    type := type
    srcset := [] }

/-- `addSrcsets(...srcset)`: append the entries to the srcset array. -/
def Source.addSrcsets (s : Source) (entries : List String) : Source :=
  { s with srcset := s.srcset ++ entries }

/-- `setMaxWidth(maxWidth)`: set the `sizes` attribute. -/
def Source.setMaxWidth (s : Source) (maxWidth : String) : Source :=
  { s with tag := (s.tag.setAttribute "sizes"
      ("(max-width: " ++ maxWidth ++ "px) 100vw, " ++ maxWidth ++ "px")) }

/-- `Source.toString()`: `setAttribute("srcset", this.srcset.join(", "))`
then `build()`. -/
def Source.render (s : Source) : String :=
  ((s.tag.setAttribute "srcset" (String.intercalate ", " s.srcset))).build

/-- `path.join(a, b)` for plain relative segments (the only shape this code
produces): the two segments separated by a slash. -/
def pathJoin (a b : String) : String :=
  a ++ "/" ++ b

/-- `path.basename(p)`: the part after the last slash (for the slash-free or
simple relative paths this code handles). -/
def basename (p : String) : String :=
  ⟨(p.data.reverse.takeWhile (fun ch => ¬ ch = '/')).reverse⟩

/-- `path.extname(p)`: a dot followed by the part of the basename after its
last dot, or empty when the basename has no dot. -/
def extname (p : String) : String :=
  let b := (basename p).data
  if '.' ∈ b then ⟨'.' :: (b.reverse.takeWhile (fun ch => ¬ ch = '.')).reverse⟩ else ""

/-- `path.basename(p, ext)`: the basename with the suffix `ext` removed when
present. -/
def basenameExt (p ext : String) : String :=
  let b := (basename p).data
  if ¬ ext = "" ∧ ext.data.isSuffixOf b then ⟨b.take (b.length - ext.data.length)⟩
  else ⟨b⟩

/-- The number denoted by a run of decimal digits. -/
def natOfDigits : List Char → Nat → Nat
  | [], acc => acc
  | c :: cs, acc => natOfDigits cs (acc * 10 + (c.toNat - '0'.toNat))

/-- `String(parseInt(s, 10))` for the plain digit strings the CLI passes:
the leading digit run re-rendered, or `"NaN"` when there is none. -/
def parseIntStr (s : String) : String :=
  let digits := s.data.takeWhile Char.isDigit
  if digits = [] then "NaN" else toString (natOfDigits digits 0)

/-- The `output` object built inside `generate` in src/src/index.ts: only the
two fields `srcset` and `type`. -/
structure GenerateOutput where
  srcset : String
  type : String
deriving DecidableEq

/-- The payload `generate` rejects with is `{error, input, output}`; the
`error` field is kept as its string rendering. -/
structure GenerateReason where
  error : String
  output : GenerateOutput
deriving DecidableEq

/-- One settled entry of `Promise.allSettled`: fulfilled with the
`{input, output}` value (only `output` is consumed downstream) or rejected
with the reason. -/
def SettledResult : Type :=
  Except GenerateReason GenerateOutput

/-- JavaScript property access on the `output` object: it owns exactly the
fields `srcset` and `type`, so any other field reads as `undefined`, which a
template literal renders as the string `"undefined"`. -/
def jsGetField (o : GenerateOutput) (field : String) : String :=
  if field = "srcset" then o.srcset
  else if field = "type" then o.type
  else "undefined"

/-- The derived output of `generate({imagePath, outputDir, size, format})`:
`imageName = basename(imagePath, extname) + "-" + size + "." + format`,
`outPath = join(outputDir, imageName)`,
`output = {srcset: outPath + " " + size + "w", type: "image/" + format}`.
The size reaches `generate` as `parseInt(size, 10)` of the CLI string. -/
def taskOutput (imagePath outputDir format sizeStr : String) : GenerateOutput :=
  let extention := extname imagePath
  let imageName := basenameExt imagePath extention
  let imageName := imageName ++ "-" ++ parseIntStr sizeStr ++ "." ++ format
  let outPath := pathJoin outputDir imageName
  { srcset := outPath ++ " " ++ parseIntStr sizeStr ++ "w"
    type := "image/" ++ format }

/-- The task list built by the nested loops in `generateImages`:
for each format (outer), for each size (inner), one task. -/
def taskInputs (formats sizes : List String) : List (String × String) :=
  List.flatten (formats.map (fun format => sizes.map (fun size => (format, size))))

/-- The settled results of the all-success run: `Promise.allSettled` keeps
one entry per task in submission order. -/
def allSettledOutputs (imagePath outputDir : String) (formats sizes : List String) :
    List GenerateOutput :=
  List.flatten (formats.map (fun format =>
    sizes.map (fun size => taskOutput imagePath outputDir format size)))

/-- One iteration of the grouping loop body:
`srcsetList = grouped.get(type) || []; srcsetList.push(srcset);
grouped.set(type, srcsetList)` — the key keeps its first-seen position. -/
def groupInsert (m : List (String × List String)) (ty s : String) :
    List (String × List String) :=
  match m with
  | [] => [(ty, [s])]
  | (k, vs) :: rest => if k = ty then (k, vs ++ [s]) :: rest else (k, vs) :: groupInsert rest ty s

/-- The grouping of a list of fulfilled outputs, in result order. -/
def groupResults (outs : List GenerateOutput) : List (String × List String) :=
  outs.foldl (fun m o => groupInsert m o.type o.srcset) []

/-- The result loop of `generateImages`: walk the settled results in order;
on the first rejected result return
`Error("could not generate " + reason.output.path + ": " + reason.error)`
(note `reason.output.path` — a field the output object does not have);
otherwise group the fulfilled outputs by `type`. -/
def processResultsAux (results : List SettledResult) (m : List (String × List String)) :
    Except String (List (String × List String)) :=
  match results with
  | [] => .ok m
  | .error reason :: _ =>
    .error ("could not generate " ++ jsGetField reason.output "path" ++ ": " ++ reason.error)
  | .ok out :: rest => processResultsAux rest (groupInsert m out.type out.srcset)

/-- The result loop started on the empty grouping map. -/
def processResults (results : List SettledResult) :
    Except String (List (String × List String)) :=
  processResultsAux results []

/-- `sizes.at(sizes.length - 1)!`: the last element; for an empty list,
`at` yields `undefined`, which the `setMaxWidth` template renders as
`"undefined"`. -/
def lastSizeJs (sizes : List String) : String :=
  match sizes.getLast? with
  | some s => s
  | none => "undefined"

/-- The per-type `Source` construction loop of `generateImages`:
`new Source(type).addSrcsets(...srcsetList).setMaxWidth(sizes.at(sizes.length - 1)!)`
for each grouped entry in map order. -/
def buildSources (grouped : List (String × List String)) (sizes : List String) :
    List Source :=
  grouped.map (fun g => ((Source.new g.1).addSrcsets g.2).setMaxWidth (lastSizeJs sizes))

/-- What a path names in the modelled filesystem. -/
inductive FileKind
  | dir
  | file
deriving DecidableEq

/-- A filesystem snapshot: which paths exist and what kind they are. -/
def FS : Type :=
  List (String × FileKind)

/-- What `stat` reports for a path, when it exists. -/
def fsStat (fs : FS) (p : String) : Option FileKind :=
  (fs.find? (fun e => e.1 = p)).map (fun e => e.2)

/-- `stats.isDirectory()`. -/
def FileKind.isDirectory : FileKind → Bool
  | .dir => true
  | .file => false

/-- `fs.statSync(path)`: throws `ENOENT` when the path does not exist. -/
def statSync (fs : FS) (p : String) : Except String FileKind :=
  match fsStat fs p with
  | some k => .ok k
  | none => .error ("ENOENT: no such file or directory, stat " ++ "\x27" ++ p ++ "\x27")

/-- `fs.existsSync(path)`. -/
def existsSync (fs : FS) (p : String) : Bool :=
  (fsStat fs p).isSome

/-- `fs.mkdirSync(path, {recursive: true})`. -/
def mkdirSync (fs : FS) (p : String) : FS :=
  (p, FileKind.dir) :: fs

/-- `assertDirExists(path)` from src/src/index.ts: `statSync` first (so a
missing path throws before anything else runs), then the not-a-directory
check, then the `existsSync`-guarded `mkdirSync`.  The outcome is either a
thrown exception (`Except.error`) or the returned `NullError` together with
the filesystem after the call. -/
def assertDirExists (fs : FS) (p : String) : Except String (Option String × FS) :=
  match statSync fs p with
  | .error e => .error e
  | .ok stats =>
    if ¬ stats.isDirectory then
      .ok (some ("path \x27" ++ p ++ "\x27 already exists and is not a directory"), fs)
    else if ¬ existsSync fs p then
      .ok (none, mkdirSync fs p)
    else
      .ok (none, fs)

/-! ### Lemmas about the attribute map -/

theorem mapSet_keys (m : List (String × String)) (k v : String) :
    attrKeys (mapSet m k v) =
      if k ∈ attrKeys m then attrKeys m else attrKeys m ++ [k] := by
  induction m with
  | nil => simp [mapSet, attrKeys]
  | cons kv rest ih =>
    obtain ⟨k0, v0⟩ := kv
    by_cases h : k0 = k
    · subst h
      simp [mapSet, attrKeys]
    · have hne : k ≠ k0 := fun hh => h hh.symm
      have hcond : (k ∈ attrKeys ((k0, v0) :: rest)) ↔ (k ∈ attrKeys rest) := by
        simp [attrKeys, hne]
      by_cases hm : k ∈ attrKeys rest
      · rw [if_pos (hcond.mpr hm)]
        simp [mapSet, attrKeys, h, ih, hm]
      · rw [if_neg (fun hx => hm (hcond.mp hx))]
        simp [mapSet, attrKeys, h, ih, hm]

theorem attrLookup_mapSet (m : List (String × String)) (k v k' : String) :
    attrLookup (mapSet m k v) k' = if k = k' then some v else attrLookup m k' := by
  induction m with
  | nil =>
    by_cases h : k = k' <;> simp [mapSet, attrLookup, h]
  | cons kv rest ih =>
    obtain ⟨k0, v0⟩ := kv
    by_cases h : k0 = k
    · subst h
      by_cases h' : k0 = k' <;> simp [mapSet, attrLookup, h']
    · by_cases h' : k0 = k'
      · subst h'
        have hne : ¬ k = k0 := fun hh => h hh.symm
        simp [mapSet, attrLookup, h, hne]
      · simp [mapSet, attrLookup, h, h', ih]

theorem mapSet_same (m : List (String × String)) (k v : String) :
    mapSet (mapSet m k v) k v = mapSet m k v := by
  induction m with
  | nil => simp [mapSet]
  | cons kv rest ih =>
    obtain ⟨k0, v0⟩ := kv
    by_cases h : k0 = k
    · subst h
      simp [mapSet]
    · simp [mapSet, h, ih]

/-! ### Claim theorems -/

/-- Claim C2, counterexample: the serialization of the `Source` built with type
`"image/webp"`, srcsets `["a.webp 240w", "b.webp 640w"]` and max-width `"640"`
is not the spec's byte-exact string, because `build` joins the closing `>`
with a space like every other list element. -/
theorem source_render_ne_spec_string :
    Source.render (((Source.new "image/webp").addSrcsets
        ["a.webp 240w", "b.webp 640w"]).setMaxWidth "640") ≠
      "<source type=\"image/webp\" sizes=\"(max-width: 640px) 100vw, 640px\" srcset=\"a.webp 240w, b.webp 640w\">" := by
  decide

/-- Claim C2, amended: the same builder serializes to exactly the spec's
string except for a single space before the closing `>`. -/
theorem source_render_roundtrip_amended :
    Source.render (((Source.new "image/webp").addSrcsets
        ["a.webp 240w", "b.webp 640w"]).setMaxWidth "640") =
      "<source type=\"image/webp\" sizes=\"(max-width: 640px) 100vw, 640px\" srcset=\"a.webp 240w, b.webp 640w\" >" := by
  rfl

/-- Claim C8: when the external engine fails, `useLQIP` rejects with the
engine's error value unchanged — no `ImageProcessingError` wrapper and no
source path is attached (the code has no catch around the sharp pipeline). -/
theorem useLQIP_rejection_is_raw (img : Img) (e : String) (width : Nat) :
    Img.useLQIP (fun _ _ => Except.error e) img width = Except.error e := rfl

/-- Claim C9: serializing an `Img` twice with no intervening mutation yields
the identical string both times — the second call recomputes the same style
attribute value, and re-setting an existing key with the same value leaves
the attribute map unchanged. -/
theorem render_idempotent (img : Img) :
    Img.render (Img.toStringRun img).2 = Img.render img := by
  simp only [Img.render, Img.toStringRun, Img.styleString, VirtualTag.setAttribute]
  rw [mapSet_same]

/-! ### Reachable `Img` states -/

/-- A sequence of `setStyle` calls, applied in order. -/
def applyStyles (img : Img) (sty : List (String × String)) : Img :=
  sty.foldl (fun i kv => i.setStyle kv.1 kv.2) img

theorem applyStyles_tag (img : Img) (sty : List (String × String)) :
    (applyStyles img sty).tag = img.tag := by
  induction sty generalizing img with
  | nil => rfl
  | cons kv rest ih =>
    show (applyStyles (img.setStyle kv.1 kv.2) rest).tag = img.tag
    rw [ih]
    rfl

/-- A `setLoading` or `setDeconding` call. -/
inductive ImgSetOp
  | load : ImgLoading → ImgSetOp
  | decode : ImgDecoding → ImgSetOp
deriving DecidableEq

/-- A sequence of loading/decoding setter calls, applied in order. -/
def applyImgSetOps (img : Img) (ops : List ImgSetOp) : Img :=
  ops.foldl (fun i op =>
    match op with
    | .load l => i.setLoading l
    | .decode d => i.setDeconding d) img

/-- The `loading` attribute value after a setter sequence. -/
def finalLoading (ops : List ImgSetOp) (dflt : String) : String :=
  ops.foldl (fun cur op =>
    match op with
    | .load l => l.val
    | .decode _ => cur) dflt

/-- The `decoding` attribute value after a setter sequence. -/
def finalDecoding (ops : List ImgSetOp) (dflt : String) : String :=
  ops.foldl (fun cur op =>
    match op with
    | .load _ => cur
    | .decode d => d.val) dflt

/-- An `img` tag state holding given `loading` and `decoding` values. -/
def imgTagLD (x y : String) : VirtualTag :=
  { tagName := "img", map := [("loading", x), ("decoding", y)] }

/-- An `Img` state holding given `loading`/`decoding` values and style map. -/
def imgStateLD (src alt x y : String) (sty : List (String × String)) : Img :=
  { tag := imgTagLD x y, src := src, alt := alt, styleMap := sty }

theorem applyImgSetOps_state (src alt : String) (ops : List ImgSetOp) (x y : String)
    (sty : List (String × String)) :
    applyImgSetOps (imgStateLD src alt x y sty) ops =
      imgStateLD src alt (finalLoading ops x) (finalDecoding ops y) sty := by
  induction ops generalizing x y with
  | nil => rfl
  | cons op rest ih =>
    cases op with
    | load l => exact ih l.val y
    | decode d => exact ih x d.val

/-- Claim C1: the serialized `<img>` never contains a `src` or `alt`
attribute — the constructor records them only as fields.  The fresh builder
serializes to a string with no `src`/`alt`, and for every loading mode,
decoding mode and style-map state the attribute keys at serialization time
are exactly `loading`, `decoding`, `style`. -/
theorem img_render_omits_src_alt (src alt : String) (l : ImgLoading) (d : ImgDecoding)
    (sty : List (String × String)) :
    Img.render (Img.new src alt) = "<img loading=\"eager\" decoding=\"sync\" style=\"\" >" ∧
    attrKeys ((Img.toStringRun
        (applyStyles (((Img.new src alt).setLoading l).setDeconding d) sty)).2.tag.map) =
      ["loading", "decoding", "style"] := by
  constructor
  · rfl
  · have h := applyStyles_tag (((Img.new src alt).setLoading l).setDeconding d) sty
    show attrKeys (mapSet (applyStyles (((Img.new src alt).setLoading l).setDeconding d)
      sty).tag.map "style" _) = _
    rw [h]
    rfl

/-- Claim C10: for every `Img` on which `useLQIP` and `setStyle` were never
invoked (any sequence of loading/decoding setter calls on a fresh builder),
the serialization still carries a `style` attribute whose value is the empty
string, rendered after the `loading` and `decoding` attributes. -/
theorem img_style_attribute_always_emitted (src alt : String) (ops : List ImgSetOp) :
    Img.render (applyImgSetOps (Img.new src alt) ops) =
      VirtualTag.build
        ⟨"img", [("loading", finalLoading ops "eager"),
          ("decoding", finalDecoding ops "sync"), ("style", "")]⟩ ∧
    Img.render (Img.new src alt) = "<img loading=\"eager\" decoding=\"sync\" style=\"\" >" := by
  constructor
  · have h : applyImgSetOps (Img.new src alt) ops =
        imgStateLD src alt (finalLoading ops "eager") (finalDecoding ops "sync") [] :=
      applyImgSetOps_state src alt ops "eager" "sync" []
    rw [Img.render, Img.toStringRun, h]
    rfl
  · rfl

/-! ### Attribute sequences on a `VirtualTag` -/

/-- A sequence of `setAttribute` calls, applied in order. -/
def applyAll (t : VirtualTag) (ops : List (String × String)) : VirtualTag :=
  ops.foldl (fun t kv => t.setAttribute kv.1 kv.2) t

/-- The keys of an attribute sequence in first-insertion order. -/
def firstKeys (ops : List (String × String)) : List String :=
  ops.foldl (fun ks kv => if kv.1 ∈ ks then ks else ks ++ [kv.1]) []

/-- The last value written for a key by an attribute sequence, if any. -/
def writes : List (String × String) → String → Option String
  | [], _ => none
  | kv :: rest, k =>
    match writes rest k with
    | some v => some v
    | none => if kv.1 = k then some kv.2 else none

theorem applyAll_keys (t : VirtualTag) (ops : List (String × String)) :
    attrKeys (applyAll t ops).map =
      ops.foldl (fun ks kv => if kv.1 ∈ ks then ks else ks ++ [kv.1]) (attrKeys t.map) := by
  induction ops generalizing t with
  | nil => rfl
  | cons kv rest ih =>
    show attrKeys (applyAll (t.setAttribute kv.1 kv.2) rest).map = _
    rw [ih]
    show _ = List.foldl _ (if kv.1 ∈ attrKeys t.map then attrKeys t.map else attrKeys t.map ++ [kv.1]) rest
    rw [VirtualTag.setAttribute, mapSet_keys]

theorem applyAll_lookup (t : VirtualTag) (ops : List (String × String)) (k : String) :
    attrLookup (applyAll t ops).map k =
      match writes ops k with
      | some v => some v
      | none => attrLookup t.map k := by
  induction ops generalizing t with
  | nil => rfl
  | cons kv rest ih =>
    show attrLookup (applyAll (t.setAttribute kv.1 kv.2) rest).map k = _
    rw [ih]
    show (match writes rest k with
      | some v => some v
      | none => attrLookup (mapSet t.map kv.1 kv.2) k) = _
    cases hw : writes rest k with
    | some v => simp [writes, hw]
    | none =>
      rw [attrLookup_mapSet]
      by_cases h : kv.1 = k
      · simp [writes, hw, h]
      · have h2 : ¬ kv.1 = k := h
        simp [writes, hw, h, h2]

theorem applyAll_tagName (t : VirtualTag) (ops : List (String × String)) :
    (applyAll t ops).tagName = t.tagName := by
  induction ops generalizing t with
  | nil => rfl
  | cons kv rest ih =>
    show (applyAll (t.setAttribute kv.1 kv.2) rest).tagName = t.tagName
    rw [ih]
    rfl

theorem foldl_firstKeys_nodup (ops : List (String × String)) (ks : List String)
    (hk : ks.Nodup) :
    (ops.foldl (fun ks kv => if kv.1 ∈ ks then ks else ks ++ [kv.1]) ks).Nodup := by
  induction ops generalizing ks with
  | nil => exact hk
  | cons kv rest ih =>
    show (List.foldl _ (if kv.1 ∈ ks then ks else ks ++ [kv.1]) rest).Nodup
    by_cases h : kv.1 ∈ ks
    · rw [if_pos h]
      exact ih ks hk
    · rw [if_neg h]
      refine ih _ ?_
      simp [List.nodup_append, hk, h]

/-- Claim C7: after any sequence of `setAttribute` calls on a fresh
`VirtualTag`, `build` renders one `key="value"` chunk per map entry in map
order, and the map holds each written key exactly once, in first-insertion
order, with the last value written for it. -/
theorem build_last_write_first_insertion (tag : String) (ops : List (String × String)) :
    VirtualTag.build (applyAll (VirtualTag.new tag) ops) =
      String.intercalate " " ((("<" ++ tag) ::
        (applyAll (VirtualTag.new tag) ops).map.map
          (fun kv => kv.1 ++ "=\"" ++ kv.2 ++ "\"")) ++ [">"]) ∧
    attrKeys (applyAll (VirtualTag.new tag) ops).map = firstKeys ops ∧
    (firstKeys ops).Nodup ∧
    ∀ k, attrLookup (applyAll (VirtualTag.new tag) ops).map k = writes ops k := by
  refine ⟨?_, applyAll_keys (VirtualTag.new tag) ops, ?_, fun k => ?_⟩
  · rw [VirtualTag.build, applyAll_tagName]
    rfl
  · exact foldl_firstKeys_nodup ops [] List.nodup_nil
  · rw [applyAll_lookup]
    cases hw : writes ops k with
    | some v => rfl
    | none => rfl

/-! ### Orchestrator properties -/

theorem buildSource_sizes_attr (g : String × List String) (sizes : List String) :
    getAttr (((Source.new g.1).addSrcsets g.2).setMaxWidth (lastSizeJs sizes)).tag "sizes" =
      some ("(max-width: " ++ lastSizeJs sizes ++ "px) 100vw, " ++ lastSizeJs sizes ++ "px") :=
  rfl

/-- Claim C5: every `<source>` built by the orchestrator gets a `sizes`
attribute of the form `(max-width: Wpx) 100vw, Wpx` where `W` is the last
element of the requested sizes list as given by the caller
(`sizes.at(sizes.length - 1)`), not the numeric maximum. -/
theorem sizes_attr_is_last_element (sizes : List String) (h : sizes ≠ [])
    (grouped : List (String × List String)) :
    (buildSources grouped sizes).map (fun s => getAttr s.tag "sizes") =
      grouped.map (fun _ => some ("(max-width: " ++ sizes.getLast h ++ "px) 100vw, " ++
        sizes.getLast h ++ "px")) := by
  have hl : lastSizeJs sizes = sizes.getLast h := by
    rw [lastSizeJs, List.getLast?_eq_getLast _ h]
  induction grouped with
  | nil => rfl
  | cons g gs ih =>
    show (getAttr (((Source.new g.1).addSrcsets g.2).setMaxWidth (lastSizeJs sizes)).tag
        "sizes") :: (buildSources gs sizes).map (fun s => getAttr s.tag "sizes") = _
    rw [List.map_cons, ih, buildSource_sizes_attr, hl]

/-- Witness for claim C5 at an unsorted concrete sizes list: the max-width
taken is the last element `240`, not the numeric maximum `640`. -/
theorem sizes_attr_is_last_element_example :
    (buildSources [("image/webp", ["x.webp 640w", "y.webp 240w"])] ["640", "240"]).map
        (fun s => getAttr s.tag "sizes") =
      [some "(max-width: 240px) 100vw, 240px"] :=
  (sizes_attr_is_last_element ["640", "240"] (by decide)
    [("image/webp", ["x.webp 640w", "y.webp 240w"])]).trans (by decide)

theorem processResultsAux_rejected (oks : List GenerateOutput) (reason : GenerateReason)
    (rest : List SettledResult) (m : List (String × List String)) :
    processResultsAux ((oks.map Except.ok) ++ Except.error reason :: rest) m =
      Except.error ("could not generate undefined: " ++ reason.error) := by
  induction oks generalizing m with
  | nil => rfl
  | cons o os ih =>
    show processResultsAux ((os.map Except.ok) ++ Except.error reason :: rest)
      (groupInsert m o.type o.srcset) = _
    exact ih _

/-- Claim C3: with `Promise.allSettled` every task settles (the results list
has one settled entry per task, the fulfilled siblings included), and one
rejected task fails the whole run — but the reported message is
`could not generate undefined: <cause>` for every rejection, because the code
reads `result.reason.output.path` and the rejection's `output` object only
has the fields `srcset` and `type`; the failing path never appears. -/
theorem rejected_task_error_message (oks : List GenerateOutput) (reason : GenerateReason)
    (rest : List SettledResult) :
    processResults ((oks.map Except.ok) ++ Except.error reason :: rest) =
      Except.error ("could not generate undefined: " ++ reason.error) :=
  processResultsAux_rejected oks reason rest []

/-- Claim C4: `assertDirExists` never modifies the filesystem — the
`mkdirSync` branch is unreachable because `statSync` already threw `ENOENT`
whenever the path is missing; a present path yields the not-a-directory
error exactly when it is not a directory, and a missing path propagates the
thrown `ENOENT` instead of being created. -/
theorem assertDirExists_never_creates (fs : FS) (p : String) :
    assertDirExists fs p =
      (statSync fs p).map (fun stats =>
        ((if stats.isDirectory then none
          else some ("path \x27" ++ p ++ "\x27 already exists and is not a directory")), fs)) := by
  rw [assertDirExists]
  cases hs : statSync fs p with
  | error e => rfl
  | ok stats =>
    have hex : existsSync fs p = true := by
      rw [statSync] at hs
      rw [existsSync]
      cases hf : fsStat fs p with
      | none => rw [hf] at hs; cases hs
      | some k => simp
    cases hd : stats.isDirectory with
    | true => simp [Except.map, hd, hex]
    | false => simp [Except.map, hd]

/-! ### Grouping by MIME type -/

/-- The MIME types present in a grouping map, in order. -/
def groupKeys : List (String × List String) → List String
  | [] => []
  | e :: rest => e.1 :: groupKeys rest

theorem groupInsert_not_mem (m : List (String × List String)) (t s : String)
    (hm : t ∉ groupKeys m) :
    groupInsert m t s = m ++ [(t, [s])] := by
  induction m with
  | nil => rfl
  | cons e rest ih =>
    obtain ⟨k, vs⟩ := e
    have hk : ¬ k = t := fun hh => hm (hh ▸ List.mem_cons_self k (groupKeys rest))
    have hrest : t ∉ groupKeys rest := fun hh => hm (List.mem_cons_of_mem _ hh)
    show (if k = t then (k, vs ++ [s]) :: rest else (k, vs) :: groupInsert rest t s) = _
    rw [if_neg hk, ih hrest]
    rfl

theorem groupKeys_append_single (m : List (String × List String)) (t : String)
    (vs : List String) :
    groupKeys (m ++ [(t, vs)]) = groupKeys m ++ [t] := by
  induction m with
  | nil => rfl
  | cons e rest ih =>
    show e.1 :: groupKeys (rest ++ [(t, vs)]) = e.1 :: groupKeys rest ++ [t]
    rw [ih]
    simp

/-- The srcset descriptors of the results with a given MIME type, in result
order. -/
def typeSrcs (outs : List GenerateOutput) (t : String) : List String :=
  (outs.filter (fun o => o.type == t)).map (fun o => o.srcset)

/-- Each grouped entry extended by the later results of its type, in order. -/
def extendEntries (outs : List GenerateOutput) (m : List (String × List String)) :
    List (String × List String) :=
  m.map (fun e => (e.1, e.2 ++ typeSrcs outs e.1))

/-- The MIME types of a result list in first-seen order, skipping the types
already seen. -/
def newTypes : List GenerateOutput → List String → List String
  | [], _ => []
  | o :: os, seen =>
    if o.type ∈ seen then newTypes os seen else o.type :: newTypes os (seen ++ [o.type])

theorem key_mem_groupKeys (m : List (String × List String)) (e : String × List String)
    (he : e ∈ m) : e.1 ∈ groupKeys m := by
  induction m with
  | nil => cases he
  | cons x rest ih =>
    rcases List.mem_cons.mp he with rfl | hmem
    · exact List.mem_cons_self _ _
    · exact List.mem_cons_of_mem _ (ih hmem)

theorem typeSrcs_cons_eq (o : GenerateOutput) (os : List GenerateOutput) (t : String)
    (h : o.type = t) : typeSrcs (o :: os) t = o.srcset :: typeSrcs os t := by
  simp [typeSrcs, List.filter_cons, h]

theorem typeSrcs_cons_ne (o : GenerateOutput) (os : List GenerateOutput) (t : String)
    (h : ¬ o.type = t) : typeSrcs (o :: os) t = typeSrcs os t := by
  simp [typeSrcs, List.filter_cons, h]

theorem extendEntries_nil (m : List (String × List String)) :
    extendEntries [] m = m := by
  simp [extendEntries, typeSrcs]

theorem extendEntries_cons_not_mem (o : GenerateOutput) (os : List GenerateOutput)
    (m : List (String × List String)) (hm : o.type ∉ groupKeys m) :
    extendEntries (o :: os) m = extendEntries os m := by
  refine List.map_congr_left (fun e he => ?_)
  have hne : ¬ o.type = e.1 := fun hh => hm (hh ▸ key_mem_groupKeys m e he)
  have h2 := typeSrcs_cons_ne o os e.1 hne
  simp [h2]

theorem groupInsert_keys (m : List (String × List String)) (t s : String) :
    groupKeys (groupInsert m t s) =
      if t ∈ groupKeys m then groupKeys m else groupKeys m ++ [t] := by
  induction m with
  | nil => simp [groupInsert, groupKeys]
  | cons e rest ih =>
    obtain ⟨k, vs⟩ := e
    by_cases hk : k = t
    · subst hk
      simp [groupInsert, groupKeys]
    · have hne : t ≠ k := fun hh => hk hh.symm
      have hcond : (t ∈ groupKeys ((k, vs) :: rest)) ↔ (t ∈ groupKeys rest) := by
        simp [groupKeys, hne]
      by_cases hm : t ∈ groupKeys rest
      · rw [if_pos (hcond.mpr hm)]
        simp [groupInsert, groupKeys, hk, ih, hm]
      · rw [if_neg (fun hx => hm (hcond.mp hx))]
        simp [groupInsert, groupKeys, hk, ih, hm]

theorem groupKeys_nodup_groupInsert (m : List (String × List String)) (t s : String)
    (hnd : (groupKeys m).Nodup) : (groupKeys (groupInsert m t s)).Nodup := by
  rw [groupInsert_keys]
  by_cases hm : t ∈ groupKeys m
  · rw [if_pos hm]
    exact hnd
  · rw [if_neg hm]
    simp [List.nodup_append, hnd, hm]

theorem extendEntries_groupInsert (o : GenerateOutput) (os : List GenerateOutput)
    (m : List (String × List String)) (hnd : (groupKeys m).Nodup)
    (hmem : o.type ∈ groupKeys m) :
    extendEntries os (groupInsert m o.type o.srcset) = extendEntries (o :: os) m := by
  induction m with
  | nil => exact absurd hmem (by simp [groupKeys])
  | cons e rest ih =>
    obtain ⟨k, vs⟩ := e
    have hnd2 := List.nodup_cons.mp (show (k :: groupKeys rest).Nodup from hnd)
    by_cases hk : k = o.type
    · have h1 : groupInsert ((k, vs) :: rest) o.type o.srcset =
          (k, vs ++ [o.srcset]) :: rest := by
        show (if k = o.type then (k, vs ++ [o.srcset]) :: rest
            else (k, vs) :: groupInsert rest o.type o.srcset) = _
        rw [if_pos hk]
      rw [h1]
      have hrest : o.type ∉ groupKeys rest := hk ▸ hnd2.1
      show (k, (vs ++ [o.srcset]) ++ typeSrcs os k) :: extendEntries os rest =
        (k, vs ++ typeSrcs (o :: os) k) :: extendEntries (o :: os) rest
      rw [extendEntries_cons_not_mem o os rest hrest]
      rw [typeSrcs_cons_eq o os k hk.symm]
      simp
    · have h1 : groupInsert ((k, vs) :: rest) o.type o.srcset =
          (k, vs) :: groupInsert rest o.type o.srcset := by
        show (if k = o.type then (k, vs ++ [o.srcset]) :: rest
            else (k, vs) :: groupInsert rest o.type o.srcset) = _
        rw [if_neg hk]
      rw [h1]
      have hmem2 : o.type ∈ groupKeys rest := by
        rcases List.mem_cons.mp (show o.type ∈ k :: groupKeys rest from hmem) with h | h
        · exact absurd h.symm hk
        · exact h
      show (k, vs ++ typeSrcs os k) :: extendEntries os (groupInsert rest o.type o.srcset) =
        (k, vs ++ typeSrcs (o :: os) k) :: extendEntries (o :: os) rest
      rw [ih hnd2.2 hmem2]
      rw [typeSrcs_cons_ne o os k (fun hh => hk hh.symm)]

theorem newTypes_not_mem_seen (os : List GenerateOutput) (seen : List String) (u : String)
    (hu : u ∈ newTypes os seen) : u ∉ seen := by
  induction os generalizing seen with
  | nil => simp [newTypes] at hu
  | cons o os ih =>
    by_cases h : o.type ∈ seen
    · have hu2 : u ∈ newTypes os seen := by
        simpa only [newTypes, if_pos h] using hu
      exact ih seen hu2
    · simp only [newTypes, if_neg h] at hu
      rcases List.mem_cons.mp hu with rfl | hu2
      · exact h
      · have hnot := ih (seen ++ [o.type]) hu2
        intro hin
        exact hnot (List.mem_append.mpr (Or.inl hin))

theorem groupFold_spec (outs : List GenerateOutput) (m : List (String × List String))
    (hnd : (groupKeys m).Nodup) :
    outs.foldl (fun acc o => groupInsert acc o.type o.srcset) m =
      extendEntries outs m ++
        (newTypes outs (groupKeys m)).map (fun t => (t, typeSrcs outs t)) := by
  induction outs generalizing m with
  | nil => simp [newTypes, extendEntries_nil]
  | cons o os ih =>
    show os.foldl _ (groupInsert m o.type o.srcset) = _
    rw [ih (groupInsert m o.type o.srcset) (groupKeys_nodup_groupInsert m o.type o.srcset hnd)]
    by_cases hmem : o.type ∈ groupKeys m
    · rw [extendEntries_groupInsert o os m hnd hmem]
      have hkeys : groupKeys (groupInsert m o.type o.srcset) = groupKeys m := by
        rw [groupInsert_keys, if_pos hmem]
      rw [hkeys]
      have hnew : newTypes (o :: os) (groupKeys m) = newTypes os (groupKeys m) := by
        simp only [newTypes, if_pos hmem]
      rw [hnew]
      congr 1
      refine List.map_congr_left (fun t ht => ?_)
      have htne : ¬ o.type = t := by
        intro hh
        exact (newTypes_not_mem_seen os (groupKeys m) t ht) (hh ▸ hmem)
      rw [typeSrcs_cons_ne o os t htne]
    · rw [groupInsert_not_mem m o.type o.srcset hmem]
      have hext : extendEntries os (m ++ [(o.type, [o.srcset])]) =
          extendEntries os m ++ [(o.type, o.srcset :: typeSrcs os o.type)] := by
        simp [extendEntries]
      rw [hext, groupKeys_append_single]
      have hnew : newTypes (o :: os) (groupKeys m) =
          o.type :: newTypes os (groupKeys m ++ [o.type]) := by
        simp only [newTypes, if_neg hmem]
      rw [hnew]
      rw [extendEntries_cons_not_mem o os m hmem]
      simp only [List.map_cons]
      rw [typeSrcs_cons_eq o os o.type rfl]
      have hmap : (newTypes os (groupKeys m ++ [o.type])).map
            (fun u => (u, typeSrcs (o :: os) u)) =
          (newTypes os (groupKeys m ++ [o.type])).map (fun u => (u, typeSrcs os u)) := by
        refine List.map_congr_left (fun u hu => ?_)
        have hune : ¬ o.type = u := by
          intro hh
          exact (newTypes_not_mem_seen os (groupKeys m ++ [o.type]) u hu)
            (List.mem_append.mpr (Or.inr (by simp [hh])))
        rw [typeSrcs_cons_ne o os u hune]
      rw [hmap]
      simp

/-- Claim C6: for every formats list (duplicates included) and sizes list
with all tasks succeeding, the grouped map lists the MIME types in
first-seen submission order (`newTypes`), and pairs each type with the
srcset descriptors of exactly the results of that type, in the original
format-by-size enumeration order (`typeSrcs` filters the settled result
list in order). -/
theorem grouping_preserves_order (imagePath outputDir : String) (formats sizes : List String) :
    groupResults (allSettledOutputs imagePath outputDir formats sizes) =
      (newTypes (allSettledOutputs imagePath outputDir formats sizes) []).map
        (fun t => (t, typeSrcs (allSettledOutputs imagePath outputDir formats sizes) t)) := by
  have h := groupFold_spec (allSettledOutputs imagePath outputDir formats sizes) []
    (by simp [groupKeys])
  simpa [groupResults, extendEntries, groupKeys] using h

/-- Concrete instances of claim C6: the spec's `[avif, webp, png, jpg]` by
`[240, 640]` run (the avif srcset lists 240 before 640, types in submission
order), and a duplicate-format run `[avif, webp, avif]` where the second
avif block merges into the first-seen avif entry in enumeration order. -/
theorem grouping_preserves_order_example :
    groupResults (allSettledOutputs "photo.png" "out" ["avif", "webp", "png", "jpg"]
        ["240", "640"]) =
      [("image/avif", ["out/photo-240.avif 240w", "out/photo-640.avif 640w"]),
        ("image/webp", ["out/photo-240.webp 240w", "out/photo-640.webp 640w"]),
        ("image/png", ["out/photo-240.png 240w", "out/photo-640.png 640w"]),
        ("image/jpg", ["out/photo-240.jpg 240w", "out/photo-640.jpg 640w"])] ∧
    groupResults (allSettledOutputs "photo.png" "out" ["avif", "webp", "avif"] ["240"]) =
      [("image/avif", ["out/photo-240.avif 240w", "out/photo-240.avif 240w"]),
        ("image/webp", ["out/photo-240.webp 240w"])] :=
  ⟨(grouping_preserves_order "photo.png" "out" ["avif", "webp", "png", "jpg"]
      ["240", "640"]).trans (by decide),
    (grouping_preserves_order "photo.png" "out" ["avif", "webp", "avif"]
      ["240"]).trans (by decide)⟩

end ImagePlus
